import Mathlib

/-!
Verification of the `cs2-cdn` VPK extractor (`src/extract-only.ts`).

The TypeScript module is embedded shallowly:

* Configuration flags, the category → archive-path table and the two fixed
  metadata paths are transcribed literally.
* The orchestrator (`extractPNGs` / `dumpFiles` / `renameFiles`) is modelled
  as a pure function from its environment (which files exist, the outcome of
  each external subprocess, injected filesystem failures) to the final
  filesystem state together with a trace of observable events (log lines,
  subprocess invocations and completions, renames).  `await` sequencing
  becomes trace concatenation; the JavaScript event loop serialises the
  `exec` callbacks, so the completion phase is a permutation of per-path
  callback blocks.
* The filesystem is a list of files, each with a parent directory path, a
  separator-free name and an opaque content string.  `node:fs` `rename`
  replaces an existing target (POSIX `rename(2)`; on Windows libuv passes
  `MOVEFILE_REPLACE_EXISTING`), which the model reflects.
* `node:path` `join`, `dirname` and `basename(name, suffix)` are modelled
  for the shapes that occur (separator-free dirent names); in particular
  `basename` strips a non-empty matching suffix — when the whole name
  equals the suffix it returns the empty string (Node's
  `if (suffix === path) return ''` short-circuit, as in its own test
  `path.basename('.js', '.js') === ''`).
* The VPK directory parser lives in the external `vpk` npm package, not in
  this repository; it is modelled from the specification (§3/§4.2).
-/

/-! ## Events and configuration -/

/-- Observable events of one extractor run: winston log lines (level and the
format-string part of the message), external-tool invocations (`exec`),
`exec`-callback completions (the `resolve()` call), and filesystem renames. -/
inductive Event where
  | info (msg : String)
  | debug (msg : String)
  | warn (msg : String)
  | error (msg : String)
  | invoke (path : String)
  | complete (path : String)
  | renamed (oldPath newPath : String)
  deriving DecidableEq, Repr

def isInvokeEv : Event → Bool
  | .invoke _ => true
  | _ => false

def isCompleteEv : Event → Bool
  | .complete _ => true
  | _ => false

def isRenamedEv : Event → Bool
  | .renamed _ _ => true
  | _ => false

def isWarnEv : Event → Bool
  | .warn _ => true
  | _ => false

/-- The `Config` interface of `extract-only.ts`. -/
structure Config where
  directory : String
  stickers : Bool
  patches : Bool
  graffiti : Bool
  characters : Bool
  musicKits : Bool
  cases : Bool
  tools : Bool
  statusIcons : Bool
  weapons : Bool
  otherWeapons : Bool
  setIcons : Bool
  seasonIcons : Bool
  premierSeasons : Bool
  tournaments : Bool
  logLevel : String
  source2Viewer : String
  deriving DecidableEq, Repr

/-- `DEFAULT_CONFIG` of `extract-only.ts`. -/
def DEFAULT_CONFIG : Config :=
  ⟨"data", true, true, true, true, true, true, true, true, true, true, true,
   true, true, true, "info", "Source2Viewer-CLI"⟩

def ECON_PATH : String := "panorama/images/econ"

/-- `neededDirectories`, in the object's insertion (= `Object.keys`) order. -/
def neededDirectories : List (String × String) :=
  [("stickers", ECON_PATH ++ "/stickers"),
   ("patches", ECON_PATH ++ "/patches"),
   ("graffiti", ECON_PATH ++ "/stickers/default"),
   ("characters", ECON_PATH ++ "/characters"),
   ("musicKits", ECON_PATH ++ "/music_kits"),
   ("cases", ECON_PATH ++ "/weapon_cases"),
   ("tools", ECON_PATH ++ "/tools"),
   ("statusIcons", ECON_PATH ++ "/status_icons"),
   ("weapons", ECON_PATH ++ "/default_generated"),
   ("otherWeapons", ECON_PATH ++ "/weapons"),
   ("seasonIcons", ECON_PATH ++ "/season_icons"),
   ("premierSeasons", ECON_PATH ++ "/premier_seasons"),
   ("tournaments", ECON_PATH ++ "/tournaments"),
   ("setIcons", ECON_PATH ++ "/set_icons")]

/-- `neededFiles`, in insertion order. -/
def neededFiles : List (String × String) :=
  [("itemsGame", "scripts/items/items_game.txt"),
   ("csgoEnglish", "resource/csgo_english.txt")]

/-- `this.config[f]` for the keys of `neededDirectories`
(`=== true` on any other key is `false`). -/
def Config.flag (c : Config) (k : String) : Bool :=
  if k = "stickers" then c.stickers
  else if k = "patches" then c.patches
  else if k = "graffiti" then c.graffiti
  else if k = "characters" then c.characters
  else if k = "musicKits" then c.musicKits
  else if k = "cases" then c.cases
  else if k = "tools" then c.tools
  else if k = "statusIcons" then c.statusIcons
  else if k = "weapons" then c.weapons
  else if k = "otherWeapons" then c.otherWeapons
  else if k = "setIcons" then c.setIcons
  else if k = "seasonIcons" then c.seasonIcons
  else if k = "premierSeasons" then c.premierSeasons
  else if k = "tournaments" then c.tournaments
  else false

/-- The `pathsToDump` computed at the top of `dumpFiles`:
selected directory prefixes followed by the two fixed metadata files. -/
def pathsToDump (c : Config) : List String :=
  (neededDirectories.filter (fun kv => c.flag kv.1)).map (fun kv => kv.2) ++
    neededFiles.map (fun kv => kv.2)

/-! ## `dumpFiles` as an event trace

Each element of `pathsToDump` gets one promise.  The promise executors run
synchronously in list order (log a debug line, spawn `exec`); the callbacks
run later, serialised by the event loop, in an arbitrary order given here as
a permutation of the path list.  A callback warns when its subprocess failed
and then always resolves. -/

/-- The synchronous phase of `dumpFiles`: per path, the debug log line and
the `exec` spawn, in list order. -/
def spawnPhase : List String → List Event
  | [] => []
  | p :: ps => .debug ("Dumping " ++ p ++ "...") :: .invoke p :: spawnPhase ps

/-- One `exec` callback: a warning when the subprocess reported an error,
then the unconditional `resolve()`. -/
def callbackTrace (outcome : String → Bool) (p : String) : List Event :=
  (if outcome p then [] else [.warn ("Warning extracting " ++ p ++ ":")]) ++
    [.complete p]

/-- The full `dumpFiles` trace: the count log line, the synchronous spawn
phase, then the callback blocks in completion order `order`.  Nothing in the
body throws (every promise resolves), so the surrounding `try`/`catch` is
inert. -/
def dumpFiles (c : Config) (outcome : String → Bool) (order : List String) :
    List Event :=
  .info ("Extracting " ++ toString (pathsToDump c).length ++
      " directories/files...") ::
    (spawnPhase (pathsToDump c) ++ (order.map (callbackTrace outcome)).flatten)

/-! ## Filesystem model and the rename pass -/

/-- One file on disk: the directory holding it, its separator-free name and
its (opaque) content. -/
structure FileEntry where
  parentPath : String
  name : String
  content : String
  deriving DecidableEq, Repr

/-- The filesystem restricted to regular files (directories never reach the
`isFile` branch of the rename loop). -/
abbrev FS := List FileEntry

/-- A `Dirent` as returned by `readdir` with `withFileTypes` and
`recursive`. -/
structure Dirent where
  parentPath : String
  name : String
  isFile : Bool
  deriving DecidableEq, Repr

/-- `readdir(directory, { withFileTypes: true, recursive: true })`:
one dirent per file, taken as a snapshot before the rename loop runs. -/
def readdir (fs : FS) : List Dirent :=
  fs.map (fun e => ⟨e.parentPath, e.name, true⟩)

/-- `node:path` `join` for a directory and a separator-free name. -/
def pathJoin (dir name : String) : String := dir ++ "/" ++ name

/-- `node:path` `dirname`: everything before the last separator (`"/"` when
the separator is leading, `"."` when there is none). -/
def pathDirname (p : String) : String :=
  let cs := p.data
  if cs.any (fun c => decide (c = '/')) then
    let pre := ((cs.reverse.dropWhile (fun c => !decide (c = '/'))).drop 1).reverse
    if pre.isEmpty then "/" else ⟨pre⟩
  else "."

/-- `node:path` `basename` without a suffix argument: everything after the
last separator. -/
def pathBase (p : String) : String :=
  ⟨(p.data.reverse.takeWhile (fun c => !decide (c = '/'))).reverse⟩

/-- JavaScript `String.prototype.endsWith`. -/
def strEndsWith (s suffix : String) : Bool :=
  decide (suffix.data <:+ s.data)

/-- `node:path` `basename(name, suffix)` for separator-free names: a
non-empty suffix that ends the name is stripped — when the whole name
equals the suffix the result is the empty string (Node short-circuits with
`if (suffix === path) return ''`); a name that does not end in the suffix
is returned unchanged. -/
def nodeBasenameSuffix (name suffix : String) : String :=
  if suffix.data ≠ [] ∧ suffix.data <:+ name.data then
    ⟨name.data.take (name.data.length - suffix.data.length)⟩
  else name

/-- Full path of a file entry. -/
def fullPath (e : FileEntry) : String := pathJoin e.parentPath e.name

/-- `node:fs` `rename`: fails (ENOENT) when the source path does not exist;
otherwise moves the source entry to the target path, replacing any existing
file at the target. -/
def fsRename (fs : FS) (o n : String) : Except String FS :=
  match fs.find? (fun e => decide (fullPath e = o)) with
  | none => .error "ENOENT"
  | some src =>
      .ok ((fs.filter
              (fun e => !decide (fullPath e = o) && !decide (fullPath e = n))) ++
            [⟨pathDirname n, pathBase n, src.content⟩])

/-- One iteration of the rename loop: files whose name ends in `_png.png`
are renamed to the suffix-stripped name (per `basename(name, "_png.png")`)
plus `.png`; any error from `rename` is caught per file and logged as a
warning.  `failInj` injects I/O failures of `rename` beyond ENOENT. -/
def renameOne (failInj : String → String → Bool) (fs : FS) (d : Dirent) :
    FS × List Event :=
  if d.isFile && strEndsWith d.name "_png.png" then
    let oldPath := pathJoin d.parentPath d.name
    let newName := nodeBasenameSuffix d.name "_png.png" ++ ".png"
    let newPath := pathJoin (pathDirname oldPath) newName
    if failInj oldPath newPath then
      (fs, [.warn ("Failed to rename " ++ d.name ++ ":")])
    else
      match fsRename fs oldPath newPath with
      | .error _ => (fs, [.warn ("Failed to rename " ++ d.name ++ ":")])
      | .ok fs2 => (fs2, [.renamed oldPath newPath])
  else (fs, [])

/-- The sequential rename loop over the `readdir` snapshot.  (The
every-100-renames debug progress line is a pure logging detail and is not
part of the event model.) -/
def renameLoop (failInj : String → String → Bool) :
    FS → List Dirent → FS × List Event
  | fs, [] => (fs, [])
  | fs, d :: ds =>
      let r1 := renameOne failInj fs d
      let r2 := renameLoop failInj r1.1 ds
      (r2.1, r1.2 ++ r2.2)

/-- Number of successful renames, as counted by `renamedCount`. -/
def countRenamed (evs : List Event) : Nat :=
  (evs.filter isRenamedEv).length

/-- `renameFiles`: logs, snapshots the directory tree, runs the rename loop;
a `readdir` failure is caught by the outer `try`/`catch` and logged as an
error, so the function always returns normally. -/
def renameFiles (failInj : String → String → Bool) (readdirFails : Bool)
    (fs : FS) : FS × List Event :=
  if readdirFails then
    (fs, [.info "Renaming _png.png files to .png...",
          .error "Error renaming files:"])
  else
    ((renameLoop failInj fs (readdir fs)).1,
     .info "Renaming _png.png files to .png..." ::
       ((renameLoop failInj fs (readdir fs)).2 ++
        [.info ("Successfully renamed " ++
          toString (countRenamed (renameLoop failInj fs (readdir fs)).2) ++
          " PNG files")]))

/-! ## `extractPNGs` -/

/-- The environment one run of `extractPNGs` observes: which prerequisite
files exist, the outcome of the external `vpk` library load (which may
throw), the per-path subprocess outcomes and their completion order,
injected rename failures, a possible `readdir` failure, and the output
directory contents at rename time (the extraction effects of the external
tool are outside the model). -/
structure Env where
  vpkExists : Bool
  viewerExists : Bool
  vpkLoad : Except String Nat
  outcome : String → Bool
  order : List String
  failInj : String → String → Bool
  readdirFails : Bool
  fs : FS

/-- Path of the archive directory file checked up front. -/
def vpkPath (c : Config) : String :=
  c.directory ++ "/game/csgo/pak01_dir.vpk"

/-- Path of the external tool executable checked up front (non-Windows
branch; the Windows branch only appends `.exe`). -/
def executablePath (c : Config) : String :=
  c.directory ++ "/" ++ c.source2Viewer

/-- `extractPNGs`: the up-front existence checks (each aborting the run with
a diagnostic), then `loadVPK` (whose exception is caught by the surrounding
`try`/`catch`), then `await dumpFiles()`, then `await renameFiles()`.  The
result is the final filesystem and the event trace; the `Except` layer
records whether the async function's promise rejects — every error path is
caught, so it never does. -/
def extractPNGs (c : Config) (env : Env) : Except String (FS × List Event) :=
  .ok <|
    if env.vpkExists = false then
      (env.fs, [.error ("VPK file not found at: " ++ vpkPath c)])
    else if env.viewerExists = false then
      (env.fs, [.error ("Source2Viewer not found at: " ++ executablePath c),
                .info "Please ensure Source2Viewer-CLI.exe is in the data directory"])
    else
      match env.vpkLoad with
      | .error _ =>
          (env.fs, [.info "Loading VPK files...",
                    .error "Error during extraction:"])
      | .ok n =>
          ((renameFiles env.failInj env.readdirFails env.fs).1,
           [.info "Loading VPK files...",
            .info ("Loaded VPK with " ++ toString n ++ " files"),
            .info "Starting PNG extraction..."] ++
             dumpFiles c env.outcome env.order ++
             (renameFiles env.failInj env.readdirFails env.fs).2 ++
             [.info "PNG extraction completed successfully!"])

/-- The event trace of a run (the promise never rejects, so the error case
is unreachable). -/
def extractTrace (c : Config) (env : Env) : List Event :=
  match extractPNGs c env with
  | .ok r => r.2
  | .error _ => []

/-- The paths of the `invoke` events of a trace, in order. -/
def invokesOf (t : List Event) : List String :=
  t.filterMap (fun e =>
    match e with
    | .invoke p => some p
    | _ => none)

/-- A small concrete configuration: every category flag off, so only the two
fixed metadata paths are requested. -/
def testConfig : Config :=
  ⟨"data", false, false, false, false, false, false, false, false, false,
   false, false, false, false, false, "info", "Source2Viewer-CLI"⟩

/-- A small concrete environment: prerequisites present, the VPK loads with
one file, every subprocess fails, callbacks complete in request order, no
injected rename failures, one `_png.png` file on disk. -/
def testEnv : Env :=
  ⟨true, true, .ok 1, fun _ => false, pathsToDump testConfig,
   fun _ _ => false, false, [⟨"data", "foo_png.png", "A"⟩]⟩

/-! ## The VPK directory parser

Modelled from the spec: the parser itself lives in the external `vpk` npm
package (only its caller `loadVPK` is in this repository), so the binary
reader and directory parser below follow §4.1–§4.2 of the specification:
little-endian typed reads over a byte buffer, the magic / version / tree
header, and the extension → directory → filename sentinel-terminated tree
yielding a flat entry list. -/

/-- Parse errors the parser must surface distinctly (§7). -/
inductive ParseError where
  | invalidSignature
  | unsupportedVersion
  | outOfBounds
  | unterminatedString
  | malformedEntry
  deriving DecidableEq, Repr

/-- The fixed VPK magic constant. -/
def MAGIC : Nat := 0x55AA1234

/-- Binary Reader (§4.1): a fixed byte buffer plus a read cursor. -/
structure BReader where
  buf : List Nat
  pos : Nat
  deriving DecidableEq, Repr

/-- Read one byte and advance; `OutOfBounds` past the end. -/
def readUInt8 (r : BReader) : Except ParseError (Nat × BReader) :=
  match r.buf[r.pos]? with
  | some b => .ok (b, ⟨r.buf, r.pos + 1⟩)
  | none => .error .outOfBounds

/-- Read two bytes little-endian. -/
def readUInt16LE (r : BReader) : Except ParseError (Nat × BReader) := do
  let (a, r) ← readUInt8 r
  let (b, r) ← readUInt8 r
  .ok (a + 256 * b, r)

/-- Read four bytes little-endian. -/
def readUInt32LE (r : BReader) : Except ParseError (Nat × BReader) := do
  let (a, r) ← readUInt16LE r
  let (b, r) ← readUInt16LE r
  .ok (a + 65536 * b, r)

/-- Read bytes up to (exclusive) a `0x00` terminator, advance past the
terminator; `UnterminatedString` when no terminator remains.  (Strings in a
VPK directory are ASCII paths; bytes are decoded one character each.) -/
def readNullTerminatedString (r : BReader) :
    Except ParseError (String × BReader) :=
  let rest := r.buf.drop r.pos
  let chars := rest.takeWhile (fun b => !decide (b = 0))
  if chars.length = rest.length then .error .unterminatedString
  else .ok (⟨chars.map Char.ofNat⟩, ⟨r.buf, r.pos + chars.length + 1⟩)

/-- Archive header (§3). -/
structure VPKHeader where
  version : Nat
  treeLength : Nat
  embedChunkLength : Nat
  chunkHashLength : Nat
  selfHashLength : Nat
  signatureLength : Nat
  deriving DecidableEq, Repr

/-- One packed file's metadata record (§3). -/
structure VPKEntry where
  path : String
  crc32 : Nat
  preloadBytes : Nat
  archiveIndex : Nat
  entryOffset : Nat
  entryLength : Nat
  deriving DecidableEq, Repr

/-- Extension normalisation: the literal `" "` is the "no extension"
sentinel. -/
def normalizeExt (e : String) : Option String :=
  if e = " " then none else some e

/-- Directory normalisation: `" "` means the root; backslashes become
forward slashes. -/
def normalizeDir (d : String) : String :=
  if d = " " then "" else d.map (fun c => if c = '\\' then '/' else c)

/-- Path of an entry from its raw extension, directory and filename
(§4.2 step 3). -/
def entryPath (extRaw dirRaw filename : String) : String :=
  let d := normalizeDir dirRaw
  (if d = "" then "" else d ++ "/") ++ filename ++
    (match normalizeExt extRaw with
     | none => ""
     | some e => "." ++ e)

/-- Read one entry record: crc32, preloadBytes, archiveIndex, entryOffset,
entryLength, then the `0xFFFF` terminator (`MalformedEntry` otherwise);
the preload bytes are skipped immediately. -/
def parseEntry (extRaw dirRaw filename : String) (r : BReader) :
    Except ParseError (VPKEntry × BReader) := do
  let (crc, r) ← readUInt32LE r
  let (preload, r) ← readUInt16LE r
  let (archiveIndex, r) ← readUInt16LE r
  let (offset, r) ← readUInt32LE r
  let (length, r) ← readUInt32LE r
  let (term, r) ← readUInt16LE r
  if term = 0xFFFF then
    .ok (⟨entryPath extRaw dirRaw filename, crc, preload, archiveIndex,
          offset, length⟩,
         ⟨r.buf, r.pos + preload⟩)
  else .error .malformedEntry

/-- Filename loop: entries for one extension/directory pair, terminated by
an empty filename.  Every iteration consumes at least one byte, so fuel one
larger than the buffer always suffices; exhausted fuel means the cursor ran
off the buffer. -/
def parseFilenames : Nat → String → String → BReader →
    Except ParseError (List VPKEntry × BReader)
  | 0, _, _, _ => .error .outOfBounds
  | fuel + 1, extRaw, dirRaw, r => do
      let (name, r) ← readNullTerminatedString r
      if name = "" then .ok ([], r)
      else do
        let (e, r) ← parseEntry extRaw dirRaw name r
        let (rest, r) ← parseFilenames fuel extRaw dirRaw r
        .ok (e :: rest, r)

/-- Directory loop: directories for one extension, terminated by an empty
directory name. -/
def parseDirs : Nat → String → BReader →
    Except ParseError (List VPKEntry × BReader)
  | 0, _, _ => .error .outOfBounds
  | fuel + 1, extRaw, r => do
      let (dirRaw, r) ← readNullTerminatedString r
      if dirRaw = "" then .ok ([], r)
      else do
        let (es, r) ← parseFilenames (r.buf.length + 1) extRaw dirRaw r
        let (rest, r) ← parseDirs fuel extRaw r
        .ok (es ++ rest, r)

/-- Extension loop: the top level of the tree, terminated by an empty
extension name. -/
def parseExts : Nat → BReader →
    Except ParseError (List VPKEntry × BReader)
  | 0, _ => .error .outOfBounds
  | fuel + 1, r => do
      let (extRaw, r) ← readNullTerminatedString r
      if extRaw = "" then .ok ([], r)
      else do
        let (es, r) ← parseDirs (r.buf.length + 1) extRaw r
        let (rest, r) ← parseExts fuel r
        .ok (es ++ rest, r)

/-- Header parse (§4.2 steps 1–2): magic, version, tree length, and for
version 2 the four extra section lengths; versions other than 1 and 2 are
rejected. -/
def parseHeader (r : BReader) : Except ParseError (VPKHeader × BReader) := do
  let (magic, r) ← readUInt32LE r
  if magic = MAGIC then do
    let (version, r) ← readUInt32LE r
    let (treeLength, r) ← readUInt32LE r
    if version = 1 then
      .ok (⟨version, treeLength, 0, 0, 0, 0⟩, r)
    else if version = 2 then do
      let (a, r) ← readUInt32LE r
      let (b, r) ← readUInt32LE r
      let (c, r) ← readUInt32LE r
      let (d, r) ← readUInt32LE r
      .ok (⟨version, treeLength, a, b, c, d⟩, r)
    else .error .unsupportedVersion
  else .error .invalidSignature

/-- `parse(buffer) -> (Header, ordered sequence of Entry)` (§4.2). -/
def parse (buf : List Nat) : Except ParseError (VPKHeader × List VPKEntry) := do
  let (h, r) ← parseHeader ⟨buf, 0⟩
  let (es, _) ← parseExts (buf.length + 1) r
  .ok (h, es)

/-! ## Helper lemmas -/

theorem data_ne_nil {s : String} (h : s ≠ "") : s.data ≠ [] :=
  fun hd => h (String.ext hd)

theorem dropWhile_append_of_all {α : Type} (p : α → Bool) (l₁ l₂ : List α)
    (h : ∀ c ∈ l₁, p c = true) :
    (l₁ ++ l₂).dropWhile p = l₂.dropWhile p := by
  induction l₁ with
  | nil => simp
  | cons a l ih =>
      have ha : p a = true := h a (by simp)
      have hl : ∀ c ∈ l, p c = true := fun c hc => h c (by simp [hc])
      simp [List.dropWhile_cons, ha, ih hl]

theorem takeWhile_append_of_all {α : Type} (p : α → Bool) (l₁ l₂ : List α)
    (h : ∀ c ∈ l₁, p c = true) :
    (l₁ ++ l₂).takeWhile p = l₁ ++ l₂.takeWhile p := by
  induction l₁ with
  | nil => simp
  | cons a l ih =>
      have ha : p a = true := h a (by simp)
      have hl : ∀ c ∈ l, p c = true := fun c hc => h c (by simp [hc])
      simp [List.takeWhile_cons, ha, ih hl]

theorem join_data (parent name : String) :
    (pathJoin parent name).data = parent.data ++ '/' :: name.data := by
  unfold pathJoin
  rw [String.data_append, String.data_append]
  simp

theorem pathDirname_join (parent name : String) (hp : parent ≠ "")
    (hn : ∀ c ∈ name.data, c ≠ '/') :
    pathDirname (pathJoin parent name) = parent := by
  unfold pathDirname
  rw [join_data]
  have hmem : ('/' : Char) ∈ parent.data ++ '/' :: name.data := by simp
  have hany : (parent.data ++ '/' :: name.data).any
      (fun c => decide (c = '/')) = true := by
    simp [List.any_eq_true]
  rw [if_pos hany]
  have hrev : (parent.data ++ '/' :: name.data).reverse =
      name.data.reverse ++ '/' :: parent.data.reverse := by
    simp
  rw [hrev]
  have hall : ∀ c ∈ name.data.reverse, (!decide (c = '/')) = true := by
    intro c hc
    simp only [List.mem_reverse] at hc
    simp [hn c hc]
  rw [dropWhile_append_of_all _ _ _ hall]
  have hpe : parent.data ≠ [] := data_ne_nil hp
  rw [List.dropWhile_cons]
  simp only [decide_eq_true_eq, decide_True, Bool.not_true]
  rw [if_neg (fun h => Bool.false_ne_true h)]
  simp only [List.drop_succ_cons, List.drop_zero, List.reverse_reverse]
  rw [if_neg (by simpa using hpe)]

theorem pathBase_join (parent name : String)
    (hn : ∀ c ∈ name.data, c ≠ '/') :
    pathBase (pathJoin parent name) = name := by
  unfold pathBase
  rw [join_data]
  have hrev : (parent.data ++ '/' :: name.data).reverse =
      name.data.reverse ++ '/' :: parent.data.reverse := by
    simp
  rw [hrev]
  have hall : ∀ c ∈ name.data.reverse, (!decide (c = '/')) = true := by
    intro c hc
    simp only [List.mem_reverse] at hc
    simp [hn c hc]
  rw [takeWhile_append_of_all _ _ _ hall]
  rw [List.takeWhile_cons]
  simp only [decide_eq_true_eq, decide_True, Bool.not_true]
  rw [if_neg (fun h => Bool.false_ne_true h)]
  simp

theorem strEndsWith_append (foo sfx : String) :
    strEndsWith (foo ++ sfx) sfx = true := by
  unfold strEndsWith
  rw [decide_eq_true_iff]
  rw [String.data_append]
  exact List.suffix_append foo.data sfx.data

theorem nodeBasenameSuffix_proper (foo : String) :
    nodeBasenameSuffix (foo ++ "_png.png") "_png.png" = foo := by
  unfold nodeBasenameSuffix
  have hsfx : ("_png.png" : String).data ≠ [] := by decide
  have hsuf : ("_png.png" : String).data <:+ (foo ++ "_png.png").data := by
    rw [String.data_append]
    exact List.suffix_append _ _
  rw [if_pos ⟨hsfx, hsuf⟩]
  apply String.ext
  rw [String.data_append]
  simp only [List.length_append]
  rw [Nat.add_sub_cancel]
  exact List.take_left foo.data _

theorem nodeBasenameSuffix_self :
    nodeBasenameSuffix "_png.png" "_png.png" = "" := by decide

theorem nodeBasenameSuffix_no_slash (name sfx : String)
    (hn : ∀ c ∈ name.data, c ≠ '/') :
    ∀ c ∈ (nodeBasenameSuffix name sfx).data, c ≠ '/' := by
  unfold nodeBasenameSuffix
  split
  · intro c hc
    exact hn c (List.take_subset _ _ hc)
  · exact hn

theorem renameOne_match (failInj : String → String → Bool) (fs : FS)
    (parent name : String) (src : FileEntry)
    (he : strEndsWith name "_png.png" = true)
    (hn : ∀ c ∈ name.data, c ≠ '/') (hp : parent ≠ "")
    (hfi : failInj (pathJoin parent name)
        (pathJoin parent (nodeBasenameSuffix name "_png.png" ++ ".png")) = false)
    (hfind : fs.find? (fun e =>
        decide (fullPath e = pathJoin parent name)) = some src) :
    renameOne failInj fs ⟨parent, name, true⟩ =
      ((fs.filter (fun e =>
          !decide (fullPath e = pathJoin parent name) &&
            !decide (fullPath e =
              pathJoin parent (nodeBasenameSuffix name "_png.png" ++ ".png")))) ++
        [⟨parent, nodeBasenameSuffix name "_png.png" ++ ".png", src.content⟩],
       [.renamed (pathJoin parent name)
          (pathJoin parent (nodeBasenameSuffix name "_png.png" ++ ".png"))]) := by
  have hnew : ∀ c ∈ (nodeBasenameSuffix name "_png.png" ++ ".png").data, c ≠ '/' := by
    intro c hc
    rw [String.data_append] at hc
    rcases List.mem_append.mp hc with h | h
    · exact nodeBasenameSuffix_no_slash name "_png.png" hn c h
    · intro hslash
      subst hslash
      revert h
      decide
  unfold renameOne
  simp only [he, Bool.and_true, Bool.true_and, if_true]
  rw [pathDirname_join parent name hp hn]
  rw [hfi]
  simp only [Bool.false_eq_true, if_false]
  unfold fsRename
  rw [hfind]
  rw [pathDirname_join parent _ hp hnew, pathBase_join parent _ hnew]

/-! ## Claims about the rename pass -/

/-- C1 (counterexample): with `foo_png.png` (content `"A"`) and `foo.png`
(content `"B"`) in the same directory, the rename pass replaces `foo.png`
with the renamed file — content `"B"` is lost — and the trace contains no
warning, error, or any other report of the collision: the existing file is
silently overwritten. -/
theorem rename_collision_counterexample :
    renameFiles (fun _ _ => false) false
        [⟨"data", "foo_png.png", "A"⟩, ⟨"data", "foo.png", "B"⟩] =
      ([⟨"data", "foo.png", "A"⟩],
       [.info "Renaming _png.png files to .png...",
        .renamed "data/foo_png.png" "data/foo.png",
        .info "Successfully renamed 1 PNG files"]) := by
  decide

/-- C1 (amended): when the target name of a rename already exists in the
same directory, no collision check is performed: the rename is executed
anyway, the existing target file is removed from the filesystem (silently
overwritten), and the only event produced is the rename itself — nothing is
reported. -/
theorem rename_collision_overwrites (failInj : String → String → Bool)
    (fs : FS) (parent foo : String) (src : FileEntry)
    (hfoo : foo ≠ "") (hsl : ∀ c ∈ foo.data, c ≠ '/') (hp : parent ≠ "")
    (hfi : failInj (pathJoin parent (foo ++ "_png.png"))
        (pathJoin parent (foo ++ ".png")) = false)
    (hfind : fs.find? (fun e =>
        decide (fullPath e = pathJoin parent (foo ++ "_png.png"))) = some src) :
    renameOne failInj fs ⟨parent, foo ++ "_png.png", true⟩ =
      ((fs.filter (fun e =>
          !decide (fullPath e = pathJoin parent (foo ++ "_png.png")) &&
            !decide (fullPath e = pathJoin parent (foo ++ ".png")))) ++
        [⟨parent, foo ++ ".png", src.content⟩],
       [.renamed (pathJoin parent (foo ++ "_png.png"))
          (pathJoin parent (foo ++ ".png"))]) := by
  have hn : ∀ c ∈ (foo ++ "_png.png").data, c ≠ '/' := by
    intro c hc
    rw [String.data_append] at hc
    rcases List.mem_append.mp hc with h | h
    · exact hsl c h
    · intro hslash
      subst hslash
      revert h
      decide
  have h := renameOne_match failInj fs parent (foo ++ "_png.png") src
    (strEndsWith_append foo "_png.png") hn hp
  rw [nodeBasenameSuffix_proper foo] at h
  exact h hfi hfind

theorem rename_collision_overwrites_witness :
    renameOne (fun _ _ => false)
        [⟨"data", "foo_png.png", "A"⟩, ⟨"data", "foo.png", "B"⟩]
        ⟨"data", "foo_png.png", true⟩ =
      ([⟨"data", "foo.png", "A"⟩],
       [.renamed "data/foo_png.png" "data/foo.png"]) := by
  have h := rename_collision_overwrites (fun _ _ => false)
    [⟨"data", "foo_png.png", "A"⟩, ⟨"data", "foo.png", "B"⟩]
    "data" "foo" ⟨"data", "foo_png.png", "A"⟩
    (by decide) (by decide) (by decide) rfl (by decide)
  exact h.trans (by decide)

/-- C5: in the rename pass, a file named `foo_png.png` (non-empty stem
`foo`) is renamed to `foo.png` in the same directory, and a file whose name
does not end in `_png.png` is left untouched (no filesystem change, no
event). -/
theorem rename_strips_suffix :
    (∀ (failInj : String → String → Bool) (fs : FS) (parent foo : String)
        (src : FileEntry),
        foo ≠ "" → (∀ c ∈ foo.data, c ≠ '/') → parent ≠ "" →
        failInj (pathJoin parent (foo ++ "_png.png"))
            (pathJoin parent (foo ++ ".png")) = false →
        fs.find? (fun e =>
            decide (fullPath e = pathJoin parent (foo ++ "_png.png"))) =
          some src →
        (renameOne failInj fs ⟨parent, foo ++ "_png.png", true⟩).2 =
          [.renamed (pathJoin parent (foo ++ "_png.png"))
            (pathJoin parent (foo ++ ".png"))]) ∧
    (∀ (failInj : String → String → Bool) (fs : FS) (d : Dirent),
        strEndsWith d.name "_png.png" = false →
        renameOne failInj fs d = (fs, [])) := by
  constructor
  · intro failInj fs parent foo src hfoo hsl hp hfi hfind
    have hn : ∀ c ∈ (foo ++ "_png.png").data, c ≠ '/' := by
      intro c hc
      rw [String.data_append] at hc
      rcases List.mem_append.mp hc with h | h
      · exact hsl c h
      · intro hslash
        subst hslash
        revert h
        decide
    have h := renameOne_match failInj fs parent (foo ++ "_png.png") src
      (strEndsWith_append foo "_png.png") hn hp
    rw [nodeBasenameSuffix_proper foo] at h
    rw [h hfi hfind]
  · intro failInj fs d hend
    unfold renameOne
    rw [hend]
    simp

theorem rename_strips_suffix_witness :
    (renameOne (fun _ _ => false) [⟨"data", "foo_png.png", "A"⟩]
        ⟨"data", "foo_png.png", true⟩).2 =
      [.renamed "data/foo_png.png" "data/foo.png"] ∧
    renameOne (fun _ _ => false) [⟨"data", "bar.png", "B"⟩]
        ⟨"data", "bar.png", true⟩ =
      ([⟨"data", "bar.png", "B"⟩], []) := by
  constructor
  · have h := rename_strips_suffix.1 (fun _ _ => false)
      [⟨"data", "foo_png.png", "A"⟩] "data" "foo" ⟨"data", "foo_png.png", "A"⟩
      (by decide) (by decide) (by decide) rfl (by decide)
    exact h.trans (by decide)
  · exact rename_strips_suffix.2 (fun _ _ => false) [⟨"data", "bar.png", "B"⟩]
      ⟨"data", "bar.png", true⟩ (by decide)

/-- C10 (counterexample to the original claim): on a directory holding a
single file named exactly `_png.png`, the rename pass renames it to `.png`
— the trace holds no rename to `_png.png.png` (and the file is not left
untouched): Node's `basename(name, suffix)` returns `""`, not the name
unchanged, when the whole name equals the suffix. -/
theorem empty_stem_counterexample :
    renameFiles (fun _ _ => false) false [⟨"data", "_png.png", "X"⟩] =
      ([⟨"data", ".png", "X"⟩],
       [.info "Renaming _png.png files to .png...",
        .renamed "data/_png.png" "data/.png",
        .info "Successfully renamed 1 PNG files"]) ∧
    Event.renamed "data/_png.png" "data/_png.png.png" ∉
      (renameFiles (fun _ _ => false) false [⟨"data", "_png.png", "X"⟩]).2 := by
  decide

/-- C10 (amended): a file whose entire name is exactly `_png.png` is not
left untouched, and is not renamed to `_png.png.png`: because Node's
`basename(name, suffix)` short-circuits to the empty string when the name
equals the suffix, the computed new name is `".png"` and the file is
renamed to `.png`. -/
theorem empty_stem_renamed (failInj : String → String → Bool) (fs : FS)
    (parent : String) (src : FileEntry) (hp : parent ≠ "")
    (hfi : failInj (pathJoin parent "_png.png")
        (pathJoin parent ".png") = false)
    (hfind : fs.find? (fun e =>
        decide (fullPath e = pathJoin parent "_png.png")) = some src) :
    (renameOne failInj fs ⟨parent, "_png.png", true⟩).2 =
      [.renamed (pathJoin parent "_png.png")
        (pathJoin parent ".png")] := by
  have h := renameOne_match failInj fs parent "_png.png" src
    (by decide) (by decide) hp
  rw [nodeBasenameSuffix_self] at h
  exact (congrArg Prod.snd (h hfi hfind)).trans rfl

theorem empty_stem_renamed_witness :
    (renameOne (fun _ _ => false) [⟨"data", "_png.png", "X"⟩]
        ⟨"data", "_png.png", true⟩).2 =
      [.renamed "data/_png.png" "data/.png"] := by
  have h := empty_stem_renamed (fun _ _ => false) [⟨"data", "_png.png", "X"⟩]
    "data" ⟨"data", "_png.png", "X"⟩ (by decide) rfl (by decide)
  exact h.trans (by decide)

/-! ## Claims about path selection and extraction invocations -/

/-- C8: whatever the per-category boolean flags, the two fixed metadata file
paths are always among the requested extraction paths. -/
theorem metadata_always_requested (c : Config) :
    "scripts/items/items_game.txt" ∈ pathsToDump c ∧
      "resource/csgo_english.txt" ∈ pathsToDump c := by
  constructor <;>
    · unfold pathsToDump neededFiles
      simp

theorem invokesOf_spawnPhase (ps : List String) :
    invokesOf (spawnPhase ps) = ps := by
  induction ps with
  | nil => rfl
  | cons p ps ih =>
      unfold spawnPhase invokesOf
      unfold invokesOf at ih
      simp only [List.filterMap_cons]
      simp [ih]

theorem invokesOf_callbacks (outcome : String → Bool) (order : List String) :
    invokesOf ((order.map (callbackTrace outcome)).flatten) = [] := by
  induction order with
  | nil => rfl
  | cons p ps ih =>
      by_cases h : outcome p <;>
        · unfold callbackTrace invokesOf at *
          simp [List.filterMap_append, List.filterMap_cons, h, ih]

/-- C7: `dumpFiles` issues exactly one external invocation per requested
path, in order, each with that path as the argument — the invocation list of
any run's trace is exactly `pathsToDump`. -/
theorem one_invocation_per_prefix (c : Config) (outcome : String → Bool)
    (order : List String) :
    invokesOf (dumpFiles c outcome order) = pathsToDump c := by
  unfold dumpFiles invokesOf
  rw [List.filterMap_cons]
  simp only [List.filterMap_append]
  have h1 := invokesOf_spawnPhase (pathsToDump c)
  have h2 := invokesOf_callbacks outcome order
  unfold invokesOf at h1 h2
  rw [h1, h2]
  simp

/-! ## Claim about the VPK parser -/

theorem except_bind_ok {ε α β : Type} (a : α) (f : α → Except ε β) :
    (Except.ok a >>= f) = f a := rfl

theorem except_bind_error {ε α β : Type} (e : ε) (f : α → Except ε β) :
    ((Except.error e : Except ε α) >>= f) = Except.error e := rfl

/-- C2: parsing an archive whose leading uint32 reads successfully to a
value different from `0x55AA1234` fails with `InvalidSignature`. -/
theorem parse_invalid_magic (buf : List Nat) (m : Nat) (r : BReader)
    (hr : readUInt32LE ⟨buf, 0⟩ = .ok (m, r)) (hm : m ≠ MAGIC) :
    parse buf = .error .invalidSignature := by
  unfold parse parseHeader
  rw [hr, except_bind_ok]
  simp [hm, except_bind_error]

theorem parse_invalid_magic_witness :
    readUInt32LE ⟨[0, 0, 0, 0], 0⟩ = .ok (0, ⟨[0, 0, 0, 0], 4⟩) ∧
      (0 : Nat) ≠ MAGIC ∧
      parse [0, 0, 0, 0] = .error .invalidSignature :=
  ⟨by rfl, by decide,
   parse_invalid_magic [0, 0, 0, 0] 0 ⟨[0, 0, 0, 0], 4⟩ (by rfl) (by decide)⟩

/-! ## Claims about the orchestrator -/

/-- C6: when the archive directory file or the external tool executable is
absent, the run aborts up front with an error diagnostic: the trace contains
an error event, the filesystem is untouched, and there is no VPK-load log
line, no extraction invocation, no completion and no rename. -/
theorem missing_prereqs_abort (c : Config) (env : Env)
    (h : env.vpkExists = false ∨ env.viewerExists = false) :
    ∃ t, extractPNGs c env = .ok (env.fs, t) ∧
      (∃ m, Event.error m ∈ t) ∧
      ∀ e ∈ t, isInvokeEv e = false ∧ isCompleteEv e = false ∧
        isRenamedEv e = false ∧ e ≠ .info "Loading VPK files..." := by
  by_cases hv : env.vpkExists = false
  · refine ⟨[.error ("VPK file not found at: " ++ vpkPath c)], ?_,
      ⟨"VPK file not found at: " ++ vpkPath c, by simp⟩, ?_⟩
    · unfold extractPNGs
      rw [if_pos hv]
    · intro e he
      simp only [List.mem_singleton] at he
      subst he
      exact ⟨rfl, rfl, rfl, by simp⟩
  · have hw : env.viewerExists = false := h.resolve_left hv
    refine ⟨[.error ("Source2Viewer not found at: " ++ executablePath c),
             .info "Please ensure Source2Viewer-CLI.exe is in the data directory"],
        ?_,
        ⟨"Source2Viewer not found at: " ++ executablePath c, by simp⟩, ?_⟩
    · unfold extractPNGs
      rw [if_neg hv, if_pos hw]
    · intro e he
      rcases List.mem_cons.mp he with rfl | he
      · exact ⟨rfl, rfl, rfl, by simp⟩
      · simp only [List.mem_singleton] at he
        subst he
        exact ⟨rfl, rfl, rfl, by decide⟩

theorem missing_prereqs_abort_witness :
    ∃ t, extractPNGs testConfig
        ⟨false, true, .ok 1, fun _ => true, [], fun _ _ => false, false, []⟩ =
        .ok (([] : FS), t) ∧
      (∃ m, Event.error m ∈ t) ∧
      ∀ e ∈ t, isInvokeEv e = false ∧ isCompleteEv e = false ∧
        isRenamedEv e = false ∧ e ≠ .info "Loading VPK files..." :=
  missing_prereqs_abort testConfig
    ⟨false, true, .ok 1, fun _ => true, [], fun _ _ => false, false, []⟩
    (Or.inl rfl)

theorem renameLoop_cons (failInj : String → String → Bool) (fs : FS)
    (d : Dirent) (ds : List Dirent) :
    renameLoop failInj fs (d :: ds) =
      ((renameLoop failInj (renameOne failInj fs d).1 ds).1,
       (renameOne failInj fs d).2 ++
         (renameLoop failInj (renameOne failInj fs d).1 ds).2) := rfl

theorem renameOne_attempts (failInj : String → String → Bool) (fs : FS)
    (d : Dirent) (hf : d.isFile = true)
    (he : strEndsWith d.name "_png.png" = true) :
    (renameOne failInj fs d).2 =
      [.renamed (pathJoin d.parentPath d.name)
        (pathJoin (pathDirname (pathJoin d.parentPath d.name))
          (nodeBasenameSuffix d.name "_png.png" ++ ".png"))] ∨
    (renameOne failInj fs d).2 =
      [.warn ("Failed to rename " ++ d.name ++ ":")] := by
  unfold renameOne
  rw [hf, he]
  simp only [Bool.and_self, if_true]
  by_cases hfi : failInj (pathJoin d.parentPath d.name)
      (pathJoin (pathDirname (pathJoin d.parentPath d.name))
        (nodeBasenameSuffix d.name "_png.png" ++ ".png")) = true
  · right
    simp [hfi]
  · cases hre : fsRename fs (pathJoin d.parentPath d.name)
        (pathJoin (pathDirname (pathJoin d.parentPath d.name))
          (nodeBasenameSuffix d.name "_png.png" ++ ".png")) with
    | error err =>
        right
        simp [hfi, hre]
    | ok fs2 =>
        left
        simp [hfi, hre]

theorem renameLoop_attempts (failInj : String → String → Bool)
    (ds : List Dirent) :
    ∀ (fs : FS) (d : Dirent), d ∈ ds → d.isFile = true →
      strEndsWith d.name "_png.png" = true →
      .renamed (pathJoin d.parentPath d.name)
          (pathJoin (pathDirname (pathJoin d.parentPath d.name))
            (nodeBasenameSuffix d.name "_png.png" ++ ".png"))
        ∈ (renameLoop failInj fs ds).2 ∨
      .warn ("Failed to rename " ++ d.name ++ ":")
        ∈ (renameLoop failInj fs ds).2 := by
  induction ds with
  | nil =>
      intro fs d hd
      cases hd
  | cons a ds ih =>
      intro fs d hd hf he
      rcases List.mem_cons.mp hd with rfl | hd
      · rcases renameOne_attempts failInj fs d hf he with h | h
        · left
          rw [renameLoop_cons, h]
          simp
        · right
          rw [renameLoop_cons, h]
          simp
      · rcases ih (renameOne failInj fs a).1 d hd hf he with h | h
        · left
          rw [renameLoop_cons]
          exact List.mem_append_right _ h
        · right
          rw [renameLoop_cons]
          exact List.mem_append_right _ h

/-- C9: the promises of `extractPNGs`, `dumpFiles` and `renameFiles` always
fulfill — every error path is caught and logged (`extractPNGs` always
returns `.ok`; `dumpFiles` and `renameFiles` are total and feed it) — and a
failure to rename one file is caught per file: every matching file in the
walk is still attempted, producing either its rename event or its per-file
warning. -/
theorem extractor_never_rejects :
    (∀ (c : Config) (env : Env), (extractPNGs c env).isOk = true) ∧
    (∀ (failInj : String → String → Bool) (fs : FS) (ds : List Dirent)
        (d : Dirent), d ∈ ds → d.isFile = true →
        strEndsWith d.name "_png.png" = true →
        .renamed (pathJoin d.parentPath d.name)
            (pathJoin (pathDirname (pathJoin d.parentPath d.name))
              (nodeBasenameSuffix d.name "_png.png" ++ ".png"))
          ∈ (renameLoop failInj fs ds).2 ∨
        .warn ("Failed to rename " ++ d.name ++ ":")
          ∈ (renameLoop failInj fs ds).2) := by
  constructor
  · intro c env
    rfl
  · intro failInj fs ds d hd hf he
    exact renameLoop_attempts failInj ds fs d hd hf he

theorem extractor_never_rejects_witness :
    (extractPNGs testConfig testEnv).isOk = true ∧
    (Event.renamed "data/fail_png.png" "data/fail.png"
        ∈ (renameLoop (fun _ _ => true) []
            [⟨"data", "fail_png.png", true⟩]).2 ∨
      Event.warn "Failed to rename fail_png.png:"
        ∈ (renameLoop (fun _ _ => true) []
            [⟨"data", "fail_png.png", true⟩]).2) :=
  ⟨extractor_never_rejects.1 testConfig testEnv,
   extractor_never_rejects.2 (fun _ _ => true) [] [⟨"data", "fail_png.png", true⟩]
     ⟨"data", "fail_png.png", true⟩ (by simp) rfl (by decide)⟩

theorem extractTrace_main (c : Config) (env : Env) (n : Nat)
    (hv : env.vpkExists = true) (hw : env.viewerExists = true)
    (hl : env.vpkLoad = .ok n) :
    extractTrace c env =
      ([.info "Loading VPK files...",
        .info ("Loaded VPK with " ++ toString n ++ " files"),
        .info "Starting PNG extraction..."] ++
          dumpFiles c env.outcome env.order) ++
        ((renameFiles env.failInj env.readdirFails env.fs).2 ++
          [.info "PNG extraction completed successfully!"]) := by
  unfold extractTrace extractPNGs
  rw [if_neg (by simp [hv]), if_neg (by simp [hw]), hl]
  simp [List.append_assoc]

theorem invoke_mem_spawnPhase (p : String) (ps : List String) (hp : p ∈ ps) :
    Event.invoke p ∈ spawnPhase ps := by
  induction ps with
  | nil => cases hp
  | cons a ps ih =>
      unfold spawnPhase
      rcases List.mem_cons.mp hp with rfl | hp
      · simp
      · simp [ih hp]

theorem complete_mem_callbacks (outcome : String → Bool)
    (order : List String) (p : String) (hp : p ∈ order) :
    Event.complete p ∈ (order.map (callbackTrace outcome)).flatten := by
  apply List.mem_flatten.mpr
  refine ⟨callbackTrace outcome p, List.mem_map_of_mem _ hp, ?_⟩
  unfold callbackTrace
  by_cases h : outcome p = true <;> simp [h]

theorem warn_mem_callbacks (outcome : String → Bool)
    (order : List String) (p : String) (hp : p ∈ order)
    (hf : outcome p = false) :
    Event.warn ("Warning extracting " ++ p ++ ":")
      ∈ (order.map (callbackTrace outcome)).flatten := by
  apply List.mem_flatten.mpr
  refine ⟨callbackTrace outcome p, List.mem_map_of_mem _ hp, ?_⟩
  unfold callbackTrace
  simp [hf]

theorem renaming_info_mem (failInj : String → String → Bool) (rdf : Bool)
    (fs : FS) :
    Event.info "Renaming _png.png files to .png..."
      ∈ (renameFiles failInj rdf fs).2 := by
  unfold renameFiles
  by_cases h : rdf = true <;> simp [h]

/-- C4: for every configuration, even when some (or all) external extraction
invocations fail, every requested path is still invoked and completes, each
failure is logged as a warning, and the rename pass still runs afterward. -/
theorem per_prefix_failure_tolerated (c : Config) (env : Env) (n : Nat)
    (p : String)
    (hv : env.vpkExists = true) (hw : env.viewerExists = true)
    (hl : env.vpkLoad = .ok n)
    (ho : env.order.Perm (pathsToDump c))
    (hp : p ∈ pathsToDump c) :
    Event.invoke p ∈ extractTrace c env ∧
    Event.complete p ∈ extractTrace c env ∧
    (env.outcome p = false →
      Event.warn ("Warning extracting " ++ p ++ ":") ∈ extractTrace c env) ∧
    Event.info "Renaming _png.png files to .png..." ∈ extractTrace c env := by
  rw [extractTrace_main c env n hv hw hl]
  have hpo : p ∈ env.order := ho.mem_iff.mpr hp
  refine ⟨?_, ?_, ?_, ?_⟩
  · apply List.mem_append_left
    apply List.mem_append_right
    unfold dumpFiles
    apply List.mem_cons_of_mem
    exact List.mem_append_left _ (invoke_mem_spawnPhase p _ hp)
  · apply List.mem_append_left
    apply List.mem_append_right
    unfold dumpFiles
    apply List.mem_cons_of_mem
    exact List.mem_append_right _ (complete_mem_callbacks env.outcome env.order p hpo)
  · intro hfail
    apply List.mem_append_left
    apply List.mem_append_right
    unfold dumpFiles
    apply List.mem_cons_of_mem
    exact List.mem_append_right _
      (warn_mem_callbacks env.outcome env.order p hpo hfail)
  · apply List.mem_append_right
    exact List.mem_append_left _
      (renaming_info_mem env.failInj env.readdirFails env.fs)

theorem per_prefix_failure_tolerated_witness :
    Event.invoke "scripts/items/items_game.txt"
        ∈ extractTrace testConfig testEnv ∧
    Event.complete "scripts/items/items_game.txt"
        ∈ extractTrace testConfig testEnv ∧
    (testEnv.outcome "scripts/items/items_game.txt" = false →
      Event.warn "Warning extracting scripts/items/items_game.txt:"
        ∈ extractTrace testConfig testEnv) ∧
    Event.info "Renaming _png.png files to .png..."
        ∈ extractTrace testConfig testEnv :=
  per_prefix_failure_tolerated testConfig testEnv 1
    "scripts/items/items_game.txt" rfl rfl rfl (List.Perm.refl _) (by decide)

theorem getElem?_append_lt {α : Type} {A B : List α} {i : Nat} {e : α}
    {p : α → Bool} (h : (A ++ B)[i]? = some e)
    (hB : ∀ x ∈ B, p x = false) (he : p e = true) : i < A.length := by
  by_contra hc
  push_neg at hc
  rw [List.getElem?_append_right hc] at h
  rw [hB e (List.getElem?_mem h)] at he
  exact Bool.false_ne_true he

theorem getElem?_append_ge {α : Type} {A B : List α} {j : Nat} {e : α}
    {p : α → Bool} (h : (A ++ B)[j]? = some e)
    (hA : ∀ x ∈ A, p x = false) (he : p e = true) : A.length ≤ j := by
  by_contra hc
  push_neg at hc
  rw [List.getElem?_append] at h
  rw [if_pos hc] at h
  rw [hA e (List.getElem?_mem h)] at he
  exact Bool.false_ne_true he

theorem spawnPhase_no_renamed (ps : List String) :
    ∀ e ∈ spawnPhase ps, isRenamedEv e = false := by
  induction ps with
  | nil =>
      intro e he
      cases he
  | cons a ps ih =>
      intro e he
      unfold spawnPhase at he
      rcases List.mem_cons.mp he with rfl | he
      · rfl
      · rcases List.mem_cons.mp he with rfl | he
        · rfl
        · exact ih e he

theorem callbacks_no_renamed (outcome : String → Bool) (order : List String) :
    ∀ e ∈ (order.map (callbackTrace outcome)).flatten,
      isRenamedEv e = false := by
  intro e he
  rcases List.mem_flatten.mp he with ⟨l, hl, hel⟩
  rcases List.mem_map.mp hl with ⟨q, _, rfl⟩
  unfold callbackTrace at hel
  by_cases h : outcome q = true
  · rw [if_pos h] at hel
    simp only [List.nil_append, List.mem_singleton] at hel
    subst hel
    rfl
  · rw [if_neg h] at hel
    rcases List.mem_append.mp hel with h1 | h1 <;>
      · simp only [List.mem_singleton] at h1
        subst h1
        rfl

theorem dumpFiles_no_renamed (c : Config) (outcome : String → Bool)
    (order : List String) :
    ∀ e ∈ dumpFiles c outcome order, isRenamedEv e = false := by
  intro e he
  unfold dumpFiles at he
  rcases List.mem_cons.mp he with rfl | he
  · rfl
  · rcases List.mem_append.mp he with h | h
    · exact spawnPhase_no_renamed _ e h
    · exact callbacks_no_renamed _ _ e h

theorem renameOne_cases (failInj : String → String → Bool) (fs : FS)
    (d : Dirent) :
    (renameOne failInj fs d).2 = [] ∨
    (∃ o n, (renameOne failInj fs d).2 = [.renamed o n]) ∨
    (∃ m, (renameOne failInj fs d).2 = [.warn m]) := by
  unfold renameOne
  by_cases h1 : (d.isFile && strEndsWith d.name "_png.png") = true
  · rw [if_pos h1]
    by_cases h2 : failInj (pathJoin d.parentPath d.name)
        (pathJoin (pathDirname (pathJoin d.parentPath d.name))
          (nodeBasenameSuffix d.name "_png.png" ++ ".png")) = true
    · right; right
      exact ⟨"Failed to rename " ++ d.name ++ ":", by simp [h2]⟩
    · cases hre : fsRename fs (pathJoin d.parentPath d.name)
          (pathJoin (pathDirname (pathJoin d.parentPath d.name))
            (nodeBasenameSuffix d.name "_png.png" ++ ".png")) with
      | error err =>
          right; right
          exact ⟨"Failed to rename " ++ d.name ++ ":", by simp [h2, hre]⟩
      | ok fs2 =>
          right; left
          exact ⟨pathJoin d.parentPath d.name,
            pathJoin (pathDirname (pathJoin d.parentPath d.name))
              (nodeBasenameSuffix d.name "_png.png" ++ ".png"),
            by simp [h2, hre]⟩
  · rw [if_neg h1]
    left
    rfl

theorem renameLoop_no_complete (failInj : String → String → Bool)
    (ds : List Dirent) :
    ∀ (fs : FS), ∀ e ∈ (renameLoop failInj fs ds).2,
      isCompleteEv e = false := by
  induction ds with
  | nil =>
      intro fs e he
      cases he
  | cons d ds ih =>
      intro fs e he
      rw [renameLoop_cons] at he
      rcases List.mem_append.mp he with h | h
      · rcases renameOne_cases failInj fs d with h0 | ⟨o, n, h0⟩ | ⟨m, h0⟩ <;>
          rw [h0] at h
        · cases h
        · simp only [List.mem_singleton] at h
          subst h
          rfl
        · simp only [List.mem_singleton] at h
          subst h
          rfl
      · exact ih _ e h

theorem renameFiles_no_complete (failInj : String → String → Bool)
    (rdf : Bool) (fs : FS) :
    ∀ e ∈ (renameFiles failInj rdf fs).2, isCompleteEv e = false := by
  intro e he
  unfold renameFiles at he
  by_cases h : rdf = true
  · rw [if_pos h] at he
    rcases List.mem_cons.mp he with rfl | he
    · rfl
    · simp only [List.mem_singleton] at he
      subst he
      rfl
  · rw [if_neg h] at he
    rcases List.mem_cons.mp he with rfl | he
    · rfl
    · rcases List.mem_append.mp he with h1 | h1
      · exact renameLoop_no_complete failInj _ fs e h1
      · simp only [List.mem_singleton] at h1
        subst h1
        rfl

/-- C3: the rename pass runs strictly after every extraction invocation has
completed: in the trace of any run, any `complete` event (an `exec` callback
having resolved) occurs at a strictly smaller position than any `renamed`
event. -/
theorem renames_after_extraction (c : Config) (env : Env) (i j : Nat)
    (p o n : String)
    (hi : (extractTrace c env)[i]? = some (.complete p))
    (hj : (extractTrace c env)[j]? = some (.renamed o n)) :
    i < j := by
  by_cases hv : env.vpkExists = false
  · exfalso
    have htr : extractTrace c env =
        [.error ("VPK file not found at: " ++ vpkPath c)] := by
      unfold extractTrace extractPNGs
      rw [if_pos hv]
    rw [htr] at hj
    have hm := List.getElem?_mem hj
    simp at hm
  by_cases hw : env.viewerExists = false
  · exfalso
    have htr : extractTrace c env =
        [.error ("Source2Viewer not found at: " ++ executablePath c),
         .info "Please ensure Source2Viewer-CLI.exe is in the data directory"] := by
      unfold extractTrace extractPNGs
      rw [if_neg hv, if_pos hw]
    rw [htr] at hj
    have hm := List.getElem?_mem hj
    simp at hm
  cases hl : env.vpkLoad with
  | error err =>
      exfalso
      have htr : extractTrace c env =
          [.info "Loading VPK files...",
           .error "Error during extraction:"] := by
        unfold extractTrace extractPNGs
        rw [if_neg hv, if_neg hw, hl]
      rw [htr] at hj
      have hm := List.getElem?_mem hj
      simp at hm
  | ok nn =>
      have hv' : env.vpkExists = true := by
        cases hb : env.vpkExists
        · exact absurd hb hv
        · rfl
      have hw' : env.viewerExists = true := by
        cases hb : env.viewerExists
        · exact absurd hb hw
        · rfl
      rw [extractTrace_main c env nn hv' hw' hl] at hi hj
      have hBn : ∀ x ∈ (renameFiles env.failInj env.readdirFails env.fs).2 ++
          [Event.info "PNG extraction completed successfully!"],
          isCompleteEv x = false := by
        intro x hx
        rcases List.mem_append.mp hx with h1 | h1
        · exact renameFiles_no_complete _ _ _ x h1
        · simp only [List.mem_singleton] at h1
          subst h1
          rfl
      have hAn : ∀ x ∈ ([Event.info "Loading VPK files...",
          Event.info ("Loaded VPK with " ++ toString nn ++ " files"),
          Event.info "Starting PNG extraction..."] ++
            dumpFiles c env.outcome env.order),
          isRenamedEv x = false := by
        intro x hx
        rcases List.mem_append.mp hx with h1 | h1
        · rcases List.mem_cons.mp h1 with rfl | h1
          · rfl
          · rcases List.mem_cons.mp h1 with rfl | h1
            · rfl
            · simp only [List.mem_singleton] at h1
              subst h1
              rfl
        · exact dumpFiles_no_renamed _ _ _ x h1
      have hiA := getElem?_append_lt hi hBn rfl
      have hjA := getElem?_append_ge hj hAn rfl
      exact lt_of_lt_of_le hiA hjA

theorem renames_after_extraction_witness :
    (extractTrace testConfig testEnv)[9]? =
        some (.complete "scripts/items/items_game.txt") ∧
    (extractTrace testConfig testEnv)[13]? =
        some (.renamed "data/foo_png.png" "data/foo.png") ∧
    9 < 13 :=
  ⟨by decide, by decide,
   renames_after_extraction testConfig testEnv 9 13
     "scripts/items/items_game.txt" "data/foo_png.png" "data/foo.png"
     (by decide) (by decide)⟩
